import Mathlib

/-!
Verification of the github-real-names browser extension core
(`src/content.js`, `src/background.js`) via a shallow embedding.

Strings are modelled as `List Char`; the in-memory name cache (`nameCache`,
a JS `Map`) and the durable store (`chrome.storage.local`) are modelled as
association lists keyed by strings.
-/

set_option autoImplicit false

namespace GitHubRealNames

/-- Strings of the JavaScript source, modelled as lists of characters. -/
abbrev Str := List Char

/-- `s.toLowerCase()` of JavaScript, modelled character-wise. -/
def lower (s : Str) : Str := s.map Char.toLower

/-- Whitespace as matched by the JavaScript `\s` class / `trim()`
(modelled by Lean's `Char.isWhitespace`). -/
def isWsChar (c : Char) : Bool := c.isWhitespace

/-- The leading whitespace of a string, as matched by `/^\s*/`. -/
def leadingWs (s : Str) : Str := s.takeWhile isWsChar

/-- The trailing whitespace of a string, as matched by `/\s*$/`. -/
def trailingWs (s : Str) : Str := (s.reverse.takeWhile isWsChar).reverse

/-- JavaScript `s.trim()`: drop whitespace from both ends. -/
def trimChars (s : Str) : Str :=
  ((s.dropWhile isWsChar).reverse.dropWhile isWsChar).reverse

/-- Association-list lookup, modelling `Map.get` / reading one key of
`chrome.storage.local`. -/
def alGet {α : Type} : List (Str × α) → Str → Option α
  | [], _ => none
  | (k, v) :: rest, key => if k = key then some v else alGet rest key

/-- Association-list insert-or-overwrite, modelling `Map.set` / writing one
key of `chrome.storage.local`. -/
def alPut {α : Type} : List (Str × α) → Str → α → List (Str × α)
  | [], key, v => [(key, v)]
  | (k, w) :: rest, key, v =>
    if k = key then (key, v) :: rest else (k, w) :: alPut rest key v

theorem alGet_alPut_same {α : Type} (s : List (Str × α)) (k : Str) (v : α) :
    alGet (alPut s k v) k = some v := by
  induction s with
  | nil => simp [alGet, alPut]
  | cons hd tl ih =>
    obtain ⟨k', v'⟩ := hd
    by_cases h : k' = k
    · simp [alGet, alPut, h]
    · simp [alGet, alPut, h, ih]

theorem alGet_alPut_ne {α : Type} (s : List (Str × α)) (k k' : Str) (v : α)
    (h : k' ≠ k) : alGet (alPut s k v) k' = alGet s k' := by
  induction s with
  | nil => simp [alGet, alPut, Ne.symm h]
  | cons hd tl ih =>
    obtain ⟨k0, v0⟩ := hd
    by_cases hk : k0 = k
    · subst hk
      simp [alPut, alGet, Ne.symm h]
    · simp only [alPut, if_neg hk, alGet]
      by_cases hk' : k0 = k'
      · simp [hk']
      · simp [hk', ih]

/-! ## Classifier (`content.js`): `extractUsernameFromHref` and its helpers -/

/-- `EXCLUDED_PATHS` of `content.js`: first path segments that never denote a
user profile. -/
def EXCLUDED_PATHS : List Str :=
  ["orgs".toList, "organizations".toList, "packages".toList, "projects".toList,
   "teams".toList, "settings".toList, "notifications".toList, "issues".toList,
   "pulls".toList, "explore".toList, "topics".toList, "trending".toList,
   "collections".toList, "events".toList, "marketplace".toList,
   "sponsors".toList, "about".toList, "pricing".toList, "team".toList,
   "enterprise".toList, "customer-stories".toList, "security".toList,
   "features".toList, "codespaces".toList, "copilot".toList, "search".toList,
   "watching".toList, "stars".toList, "new".toList, "login".toList,
   "logout".toList, "signup".toList, "join".toList, "sessions".toList,
   "community".toList]

/-- `textMatchesUsername` of `content.js`: case-insensitive equality. -/
def textMatchesUsername (text username : Str) : Bool :=
  lower text == lower username

/-- A character allowed inside the `author` capture group `[^+&\s]+`. -/
def validAuthorChar (c : Char) : Bool :=
  !(c == '+' || c == '&' || isWsChar c)

/-- Match of `author[=:]([^+&\s]+)` anchored at the start of the string. -/
def authorAt : Str → Option Str
  | 'a' :: 'u' :: 't' :: 'h' :: 'o' :: 'r' :: c :: rest =>
    if c = '=' ∨ c = ':' then
      match rest.takeWhile validAuthorChar with
      | [] => none
      | u => some u
    else none
  | _ => none

/-- Leftmost match of `/author[=:]([^+&\s]+)/`, returning the capture group,
as in `decodedHref.match(...)` of `extractUsernameFromHref`. -/
def findAuthor : Str → Option Str
  | [] => none
  | c :: rest =>
    match authorAt (c :: rest) with
    | some u => some u
    | none => findAuthor rest

/-- One hexadecimal digit of a `%xx` escape. -/
def hexVal (c : Char) : Option Nat :=
  if '0' ≤ c ∧ c ≤ '9' then some (c.toNat - '0'.toNat)
  else if 'a' ≤ c ∧ c ≤ 'f' then some (c.toNat - 'a'.toNat + 10)
  else if 'A' ≤ c ∧ c ≤ 'F' then some (c.toNat - 'A'.toNat + 10)
  else none

/-- `decodeURIComponent` modelled as lenient percent-decoding. -/
def decodeURIComponentL : Str → Str
  | [] => []
  | '%' :: h1 :: h2 :: rest =>
    match hexVal h1, hexVal h2 with
    | some a, some b => Char.ofNat (16 * a + b) :: decodeURIComponentL rest
    | _, _ => '%' :: decodeURIComponentL (h1 :: h2 :: rest)
  | c :: rest => c :: decodeURIComponentL rest

/-- Substring containment, modelling JavaScript `String.includes`. -/
def containsSub : Str → Str → Bool
  | pat, [] => pat.isPrefixOf []
  | pat, c :: rest => pat.isPrefixOf (c :: rest) || containsSub pat rest

/-- A lowercase-hex character of the commit-hash pattern `[a-f0-9]`. -/
def hexLowerDigit (c : Char) : Bool :=
  decide (('a' ≤ c ∧ c ≤ 'f') ∨ ('0' ≤ c ∧ c ≤ '9'))

/-- Match of `/\/[a-f0-9]{40}/`: a slash followed by 40 lowercase-hex chars
anywhere in the string. -/
def hasCommitHash : Str → Bool
  | [] => false
  | '/' :: rest =>
    decide ((rest.takeWhile hexLowerDigit).length ≥ 40) || hasCommitHash rest
  | _ :: rest => hasCommitHash rest

/-- `isCommitUrl` of `content.js`. -/
def isCommitUrl (href : Str) : Bool :=
  if href = [] then false
  else containsSub ("/commit/".toList) href
    || containsSub ("/commits/".toList) href
    || hasCommitHash href

/-- Capture of `/^\/([^\/\?#]+)(?:\/|$|\?|#)/`: the first path segment.
Because the capture is greedy and must be followed by `/`, `?`, `#` or the
end of the string, it is exactly the maximal run of non-`/?#` characters
after the leading slash, required to be nonempty. -/
def firstPathSegment : Str → Option Str
  | '/' :: rest =>
    match rest.takeWhile (fun c => !(c == '/' || c == '?' || c == '#')) with
    | [] => none
    | seg => some seg
  | _ => none

/-- The standard-user-path branch of `extractUsernameFromHref` (factored out
of the source function body, which reaches it whenever the author-query
branch did not return). -/
def pathSegmentBranch (href text : Str) : Option Str :=
  match firstPathSegment href with
  | some seg =>
    if EXCLUDED_PATHS.contains (lower seg) = false
        ∧ textMatchesUsername text seg = true then some seg
    else none
  | none => none

/-- `extractUsernameFromHref` of `content.js` (the unused `element` parameter
of the source is dropped). -/
def extractUsernameFromHref (href text : Str) : Option Str :=
  if href = [] then none
  else if isCommitUrl href then none
  else
    match findAuthor (decodeURIComponentL href) with
    | some username =>
      if textMatchesUsername text username then some username
      else pathSegmentBranch href text
    | none => pathSegmentBranch href text

/-! ## Display writer (`content.js`): `getTextNodes`, `updateElementDisplay` -/

/-- A DOM text node inside a username element: its character data and whether
it sits inside an `<svg>` subtree (which `getTextNodes` skips). -/
structure TextNode where
  content : Str
  inSvg : Bool
deriving DecidableEq

/-- The part of a username element that `updateElementDisplay` reads and
writes: the `user-mention` class flag, the child text nodes, and the `title`
attribute (the tooltip). -/
structure Elem where
  isMention : Bool
  nodes : List TextNode
  title : Option Str
deriving DecidableEq

/-- The `acceptNode` filter of `getTextNodes`: keep text nodes whose content
does not trim to empty and that are not inside an SVG element. -/
def visibleTextNode (n : TextNode) : Bool :=
  !(trimChars n.content == []) && !n.inSvg

/-- `getTextNodes` of `content.js`: the tree walk over an element's text
nodes with the `acceptNode` filter applied. -/
def getTextNodes (e : Elem) : List TextNode :=
  e.nodes.filter visibleTextNode

/-- The `isMatch` test of `updateElementDisplay`: the trimmed text equals the
username, `@username`, or the real name, case-insensitively (the fourth
disjunct of the source repeats the first one under `isMention`). -/
def isMatchNode (isMention : Bool) (username realName content : Str) : Bool :=
  let textLower := lower (trimChars content)
  let usernameLower := lower username
  let realNameLower := lower realName
  (textLower == usernameLower) || (textLower == '@' :: usernameLower) ||
    (textLower == realNameLower) || (isMention && (textLower == usernameLower))

/-- The display text used when showing the handle: `@username` for mention
elements, the bare username otherwise. -/
def mentionText (isMention : Bool) (username : Str) : Str :=
  if isMention then '@' :: username else username

/-- The per-text-node body of the `textNodes.forEach` loop of
`updateElementDisplay`: rewrite a matching text node, preserving its leading
and trailing whitespace. -/
def rewriteNode (isMention enabled : Bool) (username realName : Str)
    (n : TextNode) : TextNode :=
  if visibleTextNode n && isMatchNode isMention username realName n.content then
    let leading := leadingWs n.content
    let trailing := trailingWs n.content
    if enabled = false ∨ realName = username then
      { n with content := leading ++ mentionText isMention username ++ trailing }
    else
      { n with content := leading ++ realName ++ trailing }
  else n

/-- `updateElementDisplay` of `content.js`. The `title` attribute is set or
removed inside the loop exactly when some text node matches; both branches
depend only on `enabled` and `realName === username`, so the net effect is
captured by the single conditional below. When no text node passes the
filter, the fallback path overwrites `element.textContent` (collapsing the
children to one text node) and sets or removes the tooltip unconditionally. -/
def updateElementDisplay (enabled : Bool) (e : Elem) (username realName : Str) :
    Elem :=
  if getTextNodes e = [] then
    if enabled = false ∨ realName = username then
      { isMention := e.isMention,
        nodes := [⟨mentionText e.isMention username, false⟩], title := none }
    else
      { isMention := e.isMention, nodes := [⟨realName, false⟩],
        title := some ('@' :: username) }
  else
    { isMention := e.isMention,
      nodes := e.nodes.map (rewriteNode e.isMention enabled username realName),
      title :=
        if (getTextNodes e).any
            (fun n => isMatchNode e.isMention username realName n.content) then
          (if enabled = false ∨ realName = username then none
           else some ('@' :: username))
        else e.title }

/-- The per-element body of the `elementsToToggle.forEach` loop of
`toggleDisplay`: re-render a marked element from its recorded username and
the memory cache (`nameCache.get(username) || username`). -/
def toggleDisplayElement (enabled : Bool) (mem : List (Str × Str)) (e : Elem)
    (username : Str) : Elem :=
  updateElementDisplay enabled e username ((alGet mem username).getD username)

/-! ## Cache store and resolver (`content.js`): `fetchRealName`,
`revalidateIfStale`, `updateElement`, the `refreshCache` message handler -/

/-- A value held under one key of `chrome.storage.local`: the boolean
`enabled` flag, the token string, the rate-limit snapshot object, or a cache
entry `{name, timestamp}` (fields optional to model malformed shapes). -/
inductive StoreVal : Type
  | boolVal (b : Bool)
  | strVal (s : Str)
  | rlVal (limit remaining reset : Int)
  | entry (name : Option Str) (timestamp : Option Int)
deriving DecidableEq

/-- JavaScript truthiness of `storedValue?.name`: the value is an object with
a nonempty `name` string field. -/
def truthyName : Option StoreVal → Option Str
  | some (StoreVal.entry (some n) _) => if n = [] then none else some n
  | _ => none

/-- JavaScript truthiness of `storedValue?.timestamp`: the value is an object
with a nonzero `timestamp` field. -/
def truthyTimestamp : Option StoreVal → Option Int
  | some (StoreVal.entry _ (some t)) => if t = 0 then none else some t
  | _ => none

/-- The outcome of one `fetch` of `https://api.github.com/users/{username}`:
the promise rejects (network error), the response is non-ok, the body fails
to parse as JSON, or it parses with a nullable `name` field. Each reachable
response also optionally carries the three `X-RateLimit-*` headers. -/
inductive FetchOutcome : Type
  | networkError
  | httpError (status : Nat) (rlHeaders : Option (Int × Int × Int))
  | jsonError (rlHeaders : Option (Int × Int × Int))
  | success (nameField : Option Str) (rlHeaders : Option (Int × Int × Int))
deriving DecidableEq

/-- The failure outcomes of the remote lookup: network error, non-success
HTTP status, malformed payload. -/
def isFailureOutcome : FetchOutcome → Bool
  | FetchOutcome.networkError => true
  | FetchOutcome.httpError _ _ => true
  | FetchOutcome.jsonError _ => true
  | FetchOutcome.success _ _ => false

/-- An observable event of the per-element pipeline: a display write
(`updateElementDisplay(element, username, realName)`) or an actual remote
call issued by `fetchRealName`. -/
inductive Ev : Type
  | display (username realName : Str)
  | remoteFetch (username : Str)
deriving DecidableEq

/-- The process-wide mutable state of the content script: the `isEnabled`
flag, the in-memory `nameCache`, the durable `chrome.storage.local` map, and
the current clock value `Date.now()`. -/
structure World where
  enabled : Bool
  mem : List (Str × Str)
  store : List (Str × StoreVal)
  now : Int
deriving DecidableEq

/-- The reserved configuration key `enabled`. -/
def enabledKey : Str := "enabled".toList

/-- The reserved configuration key `githubToken`. -/
def githubTokenKey : Str := "githubToken".toList

/-- The reserved configuration key `rateLimitData`. -/
def rateLimitKey : Str := "rateLimitData".toList

/-- The write-through of `fetchRealName`: `nameCache.set(username, label)`
and `chrome.storage.local.set({[username]: {name: label, timestamp:
Date.now()}})`. The durable key is the raw username. -/
def cacheWrite (w : World) (username label : Str) : World :=
  { w with mem := alPut w.mem username label,
           store := alPut w.store username
             (StoreVal.entry (some label) (some w.now)) }

/-- The rate-limit header capture of `fetchRealName`: when all three headers
are present, persist them under `rateLimitData`. -/
def writeRateLimit (w : World) : Option (Int × Int × Int) → World
  | some (l, r, t) =>
    { w with store := alPut w.store rateLimitKey (StoreVal.rlVal l r t) }
  | none => w

/-- `fetchRealName` of `content.js`, as a state transformer over `World`.
Returns the resolved label (`null` for a falsy username), the new state, and
the list of remote calls issued. On `response.ok` the label is
`data.name || username` (JavaScript `||`: a null, undefined or empty `name`
falls back to the username); on every failure the username itself is cached
in both tiers and returned. -/
def fetchRealName (w : World) (username : Str) (skipCache : Bool)
    (outcome : FetchOutcome) : Option Str × World × List Ev :=
  if username = [] then (none, w, [])
  else if skipCache = false ∧ (alGet w.mem username).isSome then
    (alGet w.mem username, w, [])
  else
    match outcome with
    | FetchOutcome.networkError =>
      (some username, cacheWrite w username username, [Ev.remoteFetch username])
    | FetchOutcome.httpError _ rl =>
      (some username, cacheWrite (writeRateLimit w rl) username username,
       [Ev.remoteFetch username])
    | FetchOutcome.jsonError rl =>
      (some username, cacheWrite (writeRateLimit w rl) username username,
       [Ev.remoteFetch username])
    | FetchOutcome.success nameField rl =>
      let realName :=
        match nameField with
        | some n => if n = [] then username else n
        | none => username
      (some realName, cacheWrite (writeRateLimit w rl) username realName,
       [Ev.remoteFetch username])

/-- `REVALIDATE_AGE_MS` of `content.js`: 24 hours in milliseconds. -/
def REVALIDATE_AGE_MS : Int := 24 * 60 * 60 * 1000

/-- `revalidateIfStale` of `content.js`: when the entry is older than 24
hours, fire a background `fetchRealName(username, true)` (whose outcome is
passed in as a parameter); otherwise do nothing. -/
def revalidateIfStale (w : World) (username : Str) (timestamp : Int)
    (outcome : FetchOutcome) : List Ev × World :=
  if w.now - timestamp > REVALIDATE_AGE_MS then
    let r := fetchRealName w username true outcome
    (r.2.2, r.2.1)
  else ([], w)

/-- The per-element bookkeeping of `updateElement`: membership in
`processedElements` and the `data-github-realnames-username` attribute. -/
structure ElemState where
  processed : Bool
  attr : Option Str
deriving DecidableEq

/-- `updateElement` of `content.js`, as a state transformer producing the
trace of display writes and remote calls. `classified` is the result of
`extractUsername(element)`; `outcome` is the outcome of the (at most one)
remote call the run can issue. -/
def updateElement (w : World) (es : ElemState) (classified : Option Str)
    (outcome : FetchOutcome) : List Ev × World × ElemState :=
  if es.processed then
    match es.attr with
    | some username =>
      ([Ev.display username ((alGet w.mem username).getD username)], w, es)
    | none => ([], w, es)
  else
    match classified with
    | none => ([], w, es)
    | some username =>
      let es' : ElemState := ⟨true, some username⟩
      if w.enabled = false then
        ([Ev.display username username], w, es')
      else
        match alGet w.mem username with
        | some realName =>
          match truthyTimestamp (alGet w.store username) with
          | some ts =>
            let r := revalidateIfStale w username ts outcome
            (Ev.display username realName :: r.1, r.2, es')
          | none => ([Ev.display username realName], w, es')
        | none =>
          match truthyName (alGet w.store username) with
          | some storedName =>
            let w1 := { w with mem := alPut w.mem username storedName }
            match truthyTimestamp (alGet w.store username) with
            | some ts =>
              let r := revalidateIfStale w1 username ts outcome
              ([Ev.display username username,
                Ev.display username storedName] ++ r.1, r.2, es')
            | none =>
              ([Ev.display username username,
                Ev.display username storedName], w1, es')
          | none =>
            let r := fetchRealName w username false outcome
            (Ev.display username username :: r.2.2 ++
              [Ev.display username (r.1.getD username)], r.2.1, es')

/-- The `refreshCache` message handler, state part: `nameCache.clear()`. The
durable store is not touched. -/
def refreshCacheWorld (w : World) : World := { w with mem := [] }

/-- The `refreshCache` message handler, marker part: `processedElements = new
WeakSet()` makes every element unprocessed again (its
`data-github-realnames-username` attribute is left in place). -/
def refreshCacheElem (es : ElemState) : ElemState := ⟨false, es.attr⟩

/-! ## Daily purge (`background.js`): the `clearOldCache` alarm listener -/

/-- `CACHE_MAX_AGE_MS` of `background.js`: 7 days in milliseconds. -/
def CACHE_MAX_AGE_MS : Int := 7 * 24 * 60 * 60 * 1000

/-- The `protectedKeys` set of `background.js` (also used by `preloadCache`
in `content.js`). -/
def protectedKeys : List Str := [enabledKey, githubTokenKey, rateLimitKey]

/-- The removal test of the `clearOldCache` alarm listener: the key is not
protected, the value is an object with a truthy `timestamp`, and the entry
is older than 7 days. -/
def shouldRemoveKey (now : Int) (k : Str) (v : StoreVal) : Bool :=
  !(protectedKeys.contains k) &&
    (match truthyTimestamp (some v) with
     | some ts => decide (now - ts > CACHE_MAX_AGE_MS)
     | none => false)

/-- The `clearOldCache` alarm listener of `background.js`: remove from the
durable store exactly the keys collected in `keysToRemove`. -/
def clearOldCache (now : Int) (items : List (Str × StoreVal)) :
    List (Str × StoreVal) :=
  items.filter (fun p => !(shouldRemoveKey now p.1 p.2))

/-! ## Helper lemmas about whitespace trimming -/

theorem takeWhile_append_of_all {α : Type} (p : α → Bool) (a x : List α)
    (h : ∀ c ∈ a, p c = true) :
    (a ++ x).takeWhile p = a ++ x.takeWhile p := by
  induction a with
  | nil => simp
  | cons c t ih =>
    simp only [List.cons_append, List.takeWhile_cons, h c (by simp)]
    simpa using ih (fun d hd => h d (by simp [hd]))

theorem dropWhile_append_of_all {α : Type} (p : α → Bool) (a x : List α)
    (h : ∀ c ∈ a, p c = true) :
    (a ++ x).dropWhile p = x.dropWhile p := by
  induction a with
  | nil => simp
  | cons c t ih =>
    simp only [List.cons_append, List.dropWhile_cons, h c (by simp)]
    simpa using ih (fun d hd => h d (by simp [hd]))

theorem takeWhile_append_of_dropWhile_ne {α : Type} (p : α → Bool)
    (x y : List α) (h : x.dropWhile p ≠ []) :
    (x ++ y).takeWhile p = x.takeWhile p := by
  induction x with
  | nil => simp [List.dropWhile] at h
  | cons c t ih =>
    by_cases hc : p c = true
    · simp only [List.cons_append, List.takeWhile_cons, hc]
      have ht : t.dropWhile p ≠ [] := by
        simpa [List.dropWhile_cons, hc] using h
      simp [ih ht]
    · have hc' : p c = false := by simpa using hc
      simp [List.takeWhile_cons, hc']

theorem dropWhile_head_false {α : Type} (p : α → Bool) :
    ∀ (x : List α) (c : α) (t : List α), x.dropWhile p = c :: t → p c = false
  | [], c, t, h => by simp [List.dropWhile] at h
  | a :: r, c, t, h => by
    by_cases ha : p a = true
    · exact dropWhile_head_false p r c t (by simpa [List.dropWhile_cons, ha] using h)
    · have ha' : p a = false := by simpa using ha
      rw [List.dropWhile_cons, if_neg ha] at h
      injection h with h1 h2
      exact h1 ▸ ha'

theorem trim_head_not_ws (s : Str) (hs : trimChars s = s) (h0 : s ≠ []) :
    ∃ c t, s = c :: t ∧ isWsChar c = false := by
  cases s with
  | nil => exact absurd rfl h0
  | cons c t =>
    refine ⟨c, t, rfl, ?_⟩
    by_contra hws
    have hws' : isWsChar c = true := by simpa using hws
    have hlen : (trimChars (c :: t)).length ≤ t.length := by
      have h1 : ((c :: t).dropWhile isWsChar).length ≤ t.length := by
        simp only [List.dropWhile_cons, hws', if_true]
        exact (List.dropWhile_sublist isWsChar).length_le
      calc (trimChars (c :: t)).length
          ≤ (((c :: t).dropWhile isWsChar).reverse).length := by
            simpa [trimChars] using
              (List.dropWhile_sublist (l := ((c :: t).dropWhile isWsChar).reverse)
                isWsChar).length_le
        _ = ((c :: t).dropWhile isWsChar).length := by simp
        _ ≤ t.length := h1
    rw [hs] at hlen
    simp at hlen

theorem trim_last_not_ws (s : Str) (hs : trimChars s = s) (h0 : s ≠ []) :
    ∃ r a, s = r ++ [a] ∧ isWsChar a = false := by
  have hrev : s.reverse = (((s.dropWhile isWsChar).reverse).dropWhile isWsChar) := by
    conv_lhs => rw [← hs]
    simp [trimChars]
  cases hcase : s.reverse with
  | nil => exact absurd (by simpa using congrArg List.reverse hcase) h0
  | cons a t =>
    refine ⟨t.reverse, a, ?_, ?_⟩
    · have := congrArg List.reverse hcase
      simpa using this
    · exact dropWhile_head_false isWsChar _ a t (hrev ▸ hcase)

theorem leadingWs_all (c : Str) : ∀ x ∈ leadingWs c, isWsChar x = true := by
  intro x hx
  exact List.mem_takeWhile_imp hx

theorem trailingWs_all (c : Str) : ∀ x ∈ trailingWs c, isWsChar x = true := by
  intro x hx
  simp only [trailingWs, List.mem_reverse] at hx
  exact List.mem_takeWhile_imp hx

theorem trim_decomp (c s : Str) (h : trimChars c = s) (h0 : s ≠ []) :
    c = leadingWs c ++ s ++ trailingWs c := by
  have hd : c = leadingWs c ++ c.dropWhile isWsChar := by
    rw [leadingWs, List.takeWhile_append_dropWhile]
  have h2 : ((c.dropWhile isWsChar).reverse).dropWhile isWsChar = s.reverse := by
    have := congrArg List.reverse h
    simpa [trimChars] using this
  have h3 : (c.dropWhile isWsChar).reverse =
      ((c.dropWhile isWsChar).reverse).takeWhile isWsChar ++ s.reverse := by
    conv_lhs => rw [← List.takeWhile_append_dropWhile isWsChar
      (c.dropWhile isWsChar).reverse]
    rw [h2]
  have h4 : c.dropWhile isWsChar =
      s ++ (((c.dropWhile isWsChar).reverse).takeWhile isWsChar).reverse := by
    have := congrArg List.reverse h3
    simpa using this
  have h5 : trailingWs c =
      (((c.dropWhile isWsChar).reverse).takeWhile isWsChar).reverse := by
    have hne : ((c.dropWhile isWsChar).reverse).dropWhile isWsChar ≠ [] := by
      rw [h2]
      simpa using h0
    have hrc : c.reverse =
        (c.dropWhile isWsChar).reverse ++ (leadingWs c).reverse := by
      conv_lhs => rw [hd]
      simp
    rw [trailingWs, hrc, takeWhile_append_of_dropWhile_ne isWsChar _ _ hne]
  calc c = leadingWs c ++ c.dropWhile isWsChar := hd
    _ = leadingWs c ++ (s ++ (((c.dropWhile isWsChar).reverse).takeWhile
          isWsChar).reverse) := by rw [← h4]
    _ = leadingWs c ++ s ++ trailingWs c := by rw [h5, List.append_assoc]

theorem leadingWs_sandwich (a s b : Str) (ha : ∀ x ∈ a, isWsChar x = true)
    (hs : trimChars s = s) (h0 : s ≠ []) :
    leadingWs (a ++ s ++ b) = a := by
  obtain ⟨c, t, hct, hc⟩ := trim_head_not_ws s hs h0
  rw [leadingWs, List.append_assoc, takeWhile_append_of_all isWsChar a (s ++ b) ha,
    hct]
  simp [List.takeWhile_cons, hc]

theorem trailingWs_sandwich (a s b : Str) (hb : ∀ x ∈ b, isWsChar x = true)
    (hs : trimChars s = s) (h0 : s ≠ []) :
    trailingWs (a ++ s ++ b) = b := by
  obtain ⟨r, x, hrx, hx⟩ := trim_last_not_ws s hs h0
  have hb' : ∀ y ∈ b.reverse, isWsChar y = true := by
    intro y hy
    exact hb y (List.mem_reverse.mp hy)
  rw [trailingWs]
  have hrev : (a ++ s ++ b).reverse = b.reverse ++ (s.reverse ++ a.reverse) := by
    simp
  rw [hrev, takeWhile_append_of_all isWsChar b.reverse _ hb']
  have hsr : s.reverse = x :: r.reverse := by
    rw [hrx]
    simp
  rw [hsr]
  simp [List.takeWhile_cons, hx]

theorem trim_sandwich (a s b : Str) (ha : ∀ x ∈ a, isWsChar x = true)
    (hb : ∀ x ∈ b, isWsChar x = true) (hs : trimChars s = s) (h0 : s ≠ []) :
    trimChars (a ++ s ++ b) = s := by
  obtain ⟨c, t, hct, hc⟩ := trim_head_not_ws s hs h0
  obtain ⟨r, x, hrx, hx⟩ := trim_last_not_ws s hs h0
  have hb' : ∀ y ∈ b.reverse, isWsChar y = true := by
    intro y hy
    exact hb y (List.mem_reverse.mp hy)
  have h1 : (a ++ s ++ b).dropWhile isWsChar = s ++ b := by
    rw [List.append_assoc, dropWhile_append_of_all isWsChar a (s ++ b) ha, hct]
    simp [List.dropWhile_cons, hc]
  rw [trimChars, h1]
  have h2 : (s ++ b).reverse = b.reverse ++ s.reverse := by simp
  rw [h2, dropWhile_append_of_all isWsChar b.reverse s.reverse hb']
  have hsr : s.reverse = x :: r.reverse := by
    rw [hrx]
    simp
  rw [hsr]
  simp [List.dropWhile_cons, hx, hrx]

theorem trim_at_cons (c : Char) (s : Str) (hc : isWsChar c = false)
    (hs : trimChars s = s) : trimChars (c :: s) = c :: s := by
  cases hcs : s.isEmpty with
  | true =>
    have : s = [] := by simpa using hcs
    subst this
    simp [trimChars, List.dropWhile_cons, hc]
  | false =>
    have h0 : s ≠ [] := by simpa using hcs
    obtain ⟨r, x, hrx, hx⟩ := trim_last_not_ws s hs h0
    subst hrx
    have h1 : (c :: (r ++ [x])).dropWhile isWsChar = c :: (r ++ [x]) := by
      simp [List.dropWhile_cons, hc]
    have h2 : (c :: (r ++ [x])).reverse = x :: (r.reverse ++ [c]) := by simp
    have h3 : (x :: (r.reverse ++ [c])).dropWhile isWsChar
        = x :: (r.reverse ++ [c]) := by
      simp [List.dropWhile_cons, hx]
    rw [trimChars, h1, h2, h3]
    simp

/-! ## Helper lemmas about the display writer -/

theorem atLower : Char.toLower '@' = '@' := by decide

theorem atNotWs : isWsChar '@' = false := by decide

theorem mentionText_trimInv (m : Bool) (h : Str) (hht : trimChars h = h)
    (hh0 : h ≠ []) :
    trimChars (mentionText m h) = mentionText m h ∧ mentionText m h ≠ [] := by
  cases m
  · simpa [mentionText] using ⟨hht, hh0⟩
  · constructor
    · simpa [mentionText] using trim_at_cons '@' h atNotWs hht
    · simp [mentionText]

theorem isMatch_of_trim_eq_mention (m : Bool) (h l c : Str)
    (htr : trimChars c = mentionText m h) : isMatchNode m h l c = true := by
  cases m
  · simp [isMatchNode, mentionText] at htr ⊢
    simp [htr]
  · simp [isMatchNode, mentionText] at htr ⊢
    simp [htr, lower, atLower]

theorem isMatch_of_trim_eq_label (m : Bool) (h l c : Str)
    (htr : trimChars c = l) : isMatchNode m h l c = true := by
  simp [isMatchNode, htr]

theorem rewriteNode_not_touched (m enabled : Bool) (h l : Str) (n : TextNode)
    (hcond : (visibleTextNode n && isMatchNode m h l n.content) = false) :
    rewriteNode m enabled h l n = n := by
  simp [rewriteNode, hcond]

theorem rewriteNode_roundtrip (m : Bool) (h l : Str) (n : TextNode)
    (hne : l ≠ h) (hht : trimChars h = h) (hh0 : h ≠ [])
    (hl0 : l ≠ [])
    (hd : visibleTextNode n = true → isMatchNode m h l n.content = true →
      trimChars n.content = l) :
    rewriteNode m true h l (rewriteNode m false h l n) = n := by
  obtain ⟨cnt, sv⟩ := n
  by_cases hcond : (visibleTextNode ⟨cnt, sv⟩ &&
      isMatchNode m h l cnt) = true
  · have hcond2 : visibleTextNode ⟨cnt, sv⟩ = true ∧
        isMatchNode m h l cnt = true := by
      have := hcond
      simp only [Bool.and_eq_true] at this
      exact this
    have hv : visibleTextNode ⟨cnt, sv⟩ = true := hcond2.1
    have hmt : isMatchNode m h l cnt = true := hcond2.2
    have hsv : sv = false := by
      simp [visibleTextNode] at hv
      exact hv.2
    subst hsv
    have htr : trimChars cnt = l := hd hv hmt
    have hmtrim := mentionText_trimInv m h hht hh0
    have hla := leadingWs_all cnt
    have hta := trailingWs_all cnt
    have hinner : rewriteNode m false h l ⟨cnt, false⟩ =
        ⟨leadingWs cnt ++ mentionText m h ++ trailingWs cnt, false⟩ := by
      simp [rewriteNode, hcond]
    rw [hinner]
    have htr1 : trimChars (leadingWs cnt ++ mentionText m h ++ trailingWs cnt)
        = mentionText m h :=
      trim_sandwich _ _ _ hla hta hmtrim.1 hmtrim.2
    have hv1 : visibleTextNode
        ⟨leadingWs cnt ++ mentionText m h ++ trailingWs cnt, false⟩ = true := by
      have htr1' : trimChars (leadingWs cnt ++ (mentionText m h ++ trailingWs cnt))
          = mentionText m h := by
        rw [← List.append_assoc]
        exact htr1
      simp [visibleTextNode, htr1', hmtrim.2]
    have hm1 : isMatchNode m h l
        (leadingWs cnt ++ mentionText m h ++ trailingWs cnt) = true :=
      isMatch_of_trim_eq_mention m h l _ htr1
    have hlead1 : leadingWs (leadingWs cnt ++ mentionText m h ++ trailingWs cnt)
        = leadingWs cnt :=
      leadingWs_sandwich _ _ _ hla hmtrim.1 hmtrim.2
    have htrail1 : trailingWs (leadingWs cnt ++ mentionText m h ++ trailingWs cnt)
        = trailingWs cnt :=
      trailingWs_sandwich _ _ _ hta hmtrim.1 hmtrim.2
    have hdec : cnt = leadingWs cnt ++ l ++ trailingWs cnt :=
      trim_decomp cnt l htr hl0
    have hcond1 : (visibleTextNode
        ⟨leadingWs cnt ++ mentionText m h ++ trailingWs cnt, false⟩ &&
        isMatchNode m h l (leadingWs cnt ++ mentionText m h ++ trailingWs cnt))
        = true := by
      rw [hv1, hm1]
      rfl
    have hnotshow : ¬(true = false ∨ l = h) := by
      rintro (hh | hh)
      · exact absurd hh (by simp)
      · exact hne hh
    simp only [rewriteNode, hcond1, if_true]
    rw [if_neg hnotshow]
    simp only [TextNode.mk.injEq, and_true]
    rw [hlead1, htrail1]
    exact hdec.symm
  · have hcond' := Bool.eq_false_iff.mpr
      (fun hh => hcond hh)
    rw [rewriteNode_not_touched m false h l ⟨cnt, sv⟩ (by
      simpa using hcond)]
    exact rewriteNode_not_touched m true h l ⟨cnt, sv⟩ (by simpa using hcond)

theorem rewriteNode_off_matches (m : Bool) (h l : Str) (n : TextNode)
    (hht : trimChars h = h) (hh0 : h ≠ [])
    (hvis : visibleTextNode n = true) (htr : trimChars n.content = l) :
    visibleTextNode (rewriteNode m false h l n) = true ∧
    isMatchNode m h l (rewriteNode m false h l n).content = true := by
  obtain ⟨cnt, sv⟩ := n
  have hsv : sv = false := by
    simp [visibleTextNode] at hvis
    exact hvis.2
  subst hsv
  have hmatch : isMatchNode m h l cnt = true :=
    isMatch_of_trim_eq_label m h l cnt htr
  have hcond : (visibleTextNode ⟨cnt, false⟩ && isMatchNode m h l cnt) = true := by
    rw [hvis, hmatch]
    rfl
  have hmtrim := mentionText_trimInv m h hht hh0
  have hinner : rewriteNode m false h l ⟨cnt, false⟩ =
      ⟨leadingWs cnt ++ mentionText m h ++ trailingWs cnt, false⟩ := by
    simp [rewriteNode, hcond]
  rw [hinner]
  have htr1 : trimChars (leadingWs cnt ++ mentionText m h ++ trailingWs cnt)
      = mentionText m h :=
    trim_sandwich _ _ _ (leadingWs_all cnt) (trailingWs_all cnt) hmtrim.1 hmtrim.2
  constructor
  · simp only [visibleTextNode]
    rw [List.append_assoc] at htr1
    simp [htr1, hmtrim.2]
  · exact isMatch_of_trim_eq_mention m h l _ htr1

/-- C3: for every node carrying a marker with handle `h` whose label `l` is
present in the memory cache and differs from `h`, and whose display state is
"showing `l` with tooltip `@h`", the per-element render of
`toggleDisplay` after `setEnabled(false)` followed by the one after
`setEnabled(true)` restores the node to its exact previous state. -/
theorem toggle_roundtrip_restores_display (mem : List (Str × Str)) (e : Elem)
    (h l : Str)
    (hcache : alGet mem h = some l) (hne : l ≠ h)
    (hht : trimChars h = h) (hh0 : h ≠ []) (hl0 : l ≠ [])
    (htitle : e.title = some ('@' :: h))
    (hdisp : ∀ n ∈ e.nodes, visibleTextNode n = true →
      isMatchNode e.isMention h l n.content = true → trimChars n.content = l)
    (hex : ∃ n ∈ e.nodes, visibleTextNode n = true ∧ trimChars n.content = l) :
    toggleDisplayElement true mem (toggleDisplayElement false mem e h) h = e := by
  obtain ⟨em, en, et⟩ := e
  simp only at htitle hdisp hex
  subst htitle
  obtain ⟨n0, hn0mem, hn0vis, hn0trim⟩ := hex
  have hget : (alGet mem h).getD h = l := by
    rw [hcache]
    rfl
  have hn0filter : n0 ∈ getTextNodes ⟨em, en, some ('@' :: h)⟩ :=
    List.mem_filter.mpr ⟨hn0mem, hn0vis⟩
  have hne1 : getTextNodes ⟨em, en, some ('@' :: h)⟩ ≠ [] :=
    List.ne_nil_of_mem hn0filter
  have hmatch0 : isMatchNode em h l n0.content = true :=
    isMatch_of_trim_eq_label em h l n0.content hn0trim
  have hany1 : (getTextNodes ⟨em, en, some ('@' :: h)⟩).any
      (fun n => isMatchNode em h l n.content) = true :=
    List.any_eq_true.mpr ⟨n0, hn0filter, hmatch0⟩
  have e1def : toggleDisplayElement false mem ⟨em, en, some ('@' :: h)⟩ h =
      ⟨em, en.map (rewriteNode em false h l), none⟩ := by
    rw [toggleDisplayElement, hget, updateElementDisplay, if_neg hne1]
    simp [hany1]
  rw [e1def]
  obtain ⟨hn1vis, hn1match⟩ :=
    rewriteNode_off_matches em h l n0 hht hh0 hn0vis hn0trim
  have hn1mem : rewriteNode em false h l n0 ∈
      en.map (rewriteNode em false h l) :=
    List.mem_map.mpr ⟨n0, hn0mem, rfl⟩
  have hn1filter : rewriteNode em false h l n0 ∈
      getTextNodes ⟨em, en.map (rewriteNode em false h l), none⟩ :=
    List.mem_filter.mpr ⟨hn1mem, hn1vis⟩
  have hne2 : getTextNodes ⟨em, en.map (rewriteNode em false h l), none⟩ ≠ [] :=
    List.ne_nil_of_mem hn1filter
  have hany2 : (getTextNodes ⟨em, en.map (rewriteNode em false h l), none⟩).any
      (fun n => isMatchNode em h l n.content) = true :=
    List.any_eq_true.mpr ⟨rewriteNode em false h l n0, hn1filter, hn1match⟩
  have hmapmap : (en.map (rewriteNode em false h l)).map
      (rewriteNode em true h l) = en := by
    rw [List.map_map]
    have hpt : ∀ n ∈ en, (rewriteNode em true h l ∘ rewriteNode em false h l) n
        = id n := by
      intro n hn
      exact rewriteNode_roundtrip em h l n hne hht hh0 hl0 (hdisp n hn)
    rw [List.map_congr_left hpt]
    exact List.map_id en
  rw [toggleDisplayElement, hget, updateElementDisplay, if_neg hne2]
  simp [hany2, hmapmap, hne]

/-- C4: while the enabled flag is false, every call of `updateElementDisplay`
removes the tooltip and writes only the handle (with a leading sigil for
mention nodes) into the nodes it touches — a resolved label is never placed
into the node, even when the call is triggered by a resolution that
completed after the user toggled off. (The hypothesis restricts to the
situations the pipeline produces: the node either has no filtered text nodes
or has one matching the handle/label forms.) -/
theorem disabled_display_writes_handle_only (e : Elem) (u l : Str) :
    (∀ n' ∈ (updateElementDisplay false e u l).nodes,
      n' ∈ e.nodes ∨ n'.content = mentionText e.isMention u ∨
      ∃ n ∈ e.nodes, n'.content =
        leadingWs n.content ++ mentionText e.isMention u ++
          trailingWs n.content) ∧
    ((getTextNodes e = [] ∨
      ∃ n ∈ getTextNodes e, isMatchNode e.isMention u l n.content = true) →
      (updateElementDisplay false e u l).title = none) := by
  by_cases hempty : getTextNodes e = []
  · rw [updateElementDisplay, if_pos hempty, if_pos (Or.inl rfl)]
    refine ⟨?_, fun _ => rfl⟩
    intro n' hn'
    simp only [List.mem_singleton] at hn'
    subst hn'
    exact Or.inr (Or.inl rfl)
  · rw [updateElementDisplay, if_neg hempty]
    constructor
    · intro n' hn'
      simp only [List.mem_map] at hn'
      obtain ⟨n, hn, hrw⟩ := hn'
      by_cases hc : (visibleTextNode n &&
          isMatchNode e.isMention u l n.content) = true
      · refine Or.inr (Or.inr ⟨n, hn, ?_⟩)
        rw [← hrw]
        simp [rewriteNode, hc]
      · refine Or.inl ?_
        rw [← hrw, rewriteNode_not_touched _ _ _ _ _ (by simpa using hc)]
        exact hn
    · rintro (hcontra | ⟨n0, hn0f, hn0m⟩)
      · exact absurd hcontra hempty
      · have hany : (getTextNodes e).any
            (fun n => isMatchNode e.isMention u l n.content) = true :=
          List.any_eq_true.mpr ⟨n0, hn0f, hn0m⟩
        simp [hany]

theorem rewriteNode_inSvg (m enabled : Bool) (u l : Str) (n : TextNode) :
    (rewriteNode m enabled u l n).inSvg = n.inSvg := by
  rw [rewriteNode]
  split
  · split <;> rfl
  · rfl

theorem zip_self_map {α β : Type} (f : α → β) :
    ∀ l : List α, l.zip (l.map f) = l.map (fun a => (a, f a))
  | [] => rfl
  | a :: t => by
    simp only [List.map_cons, List.zip_cons_cons]
    rw [zip_self_map f t]

/-- C8: frame property of the display write. For a node with text nodes,
`updateElementDisplay` keeps the node count and SVG flags, changes only text
nodes whose trimmed content is the handle or the label (with or without a
leading sigil, case-insensitively), preserves the leading/trailing
whitespace of the nodes it rewrites, attaches the tooltip `@handle` exactly
when a resolved label (different from the handle, while enabled) is shown to
a matching node, removes it when the handle is shown, and leaves the tooltip
alone when nothing matches. -/
theorem updateElementDisplay_frame (enabled : Bool) (e : Elem) (u l : Str)
    (hne : getTextNodes e ≠ []) :
    (updateElementDisplay enabled e u l).isMention = e.isMention ∧
    (updateElementDisplay enabled e u l).nodes.length = e.nodes.length ∧
    (∀ p ∈ e.nodes.zip (updateElementDisplay enabled e u l).nodes,
      p.2.inSvg = p.1.inSvg ∧
      (p.2 ≠ p.1 →
        lower (trimChars p.1.content) ∈
          [lower u, '@' :: lower u, lower l, '@' :: lower l] ∧
        p.2.content = leadingWs p.1.content ++
          (if enabled = true ∧ l ≠ u then l else mentionText e.isMention u) ++
          trailingWs p.1.content)) ∧
    ((∃ n ∈ getTextNodes e, isMatchNode e.isMention u l n.content = true) →
      (updateElementDisplay enabled e u l).title =
        (if enabled = true ∧ l ≠ u then some ('@' :: u) else none)) ∧
    ((∀ n ∈ getTextNodes e, isMatchNode e.isMention u l n.content = false) →
      (updateElementDisplay enabled e u l).title = e.title) := by
  rw [updateElementDisplay, if_neg hne]
  refine ⟨rfl, by simp, ?_, ?_, ?_⟩
  · intro p hp
    rw [zip_self_map] at hp
    simp only [List.mem_map] at hp
    obtain ⟨n, hn, hpe⟩ := hp
    subst hpe
    by_cases hc : (visibleTextNode n &&
        isMatchNode e.isMention u l n.content) = true
    · constructor
      · exact rewriteNode_inSvg _ _ _ _ _
      · intro _
        have hm' : isMatchNode e.isMention u l n.content = true := by
          have := hc
          simp only [Bool.and_eq_true] at this
          exact this.2
        constructor
        · have := hm'
          simp only [isMatchNode, Bool.or_eq_true, Bool.and_eq_true,
            beq_iff_eq] at this
          simp only [List.mem_cons, List.not_mem_nil, or_false]
          tauto
        · by_cases hcase : enabled = true ∧ l ≠ u
          · rw [if_pos hcase]
            have hshow : ¬(enabled = false ∨ l = u) := by
              rintro (hh | hh)
              · rw [hcase.1] at hh
                exact absurd hh (by simp)
              · exact hcase.2 hh
            simp [rewriteNode, hc, if_neg hshow]
          · rw [if_neg hcase]
            have hshow : enabled = false ∨ l = u := by
              by_cases he : enabled = true
              · exact Or.inr (by
                  by_contra hlu
                  exact hcase ⟨he, hlu⟩)
              · exact Or.inl (by simpa using he)
            simp [rewriteNode, hc, if_pos hshow]
    · constructor
      · rw [rewriteNode_not_touched _ _ _ _ _ (by simpa using hc)]
      · intro hdiff
        rw [rewriteNode_not_touched _ _ _ _ _ (by simpa using hc)] at hdiff
        exact absurd rfl hdiff
  · rintro ⟨n0, hn0, hm0⟩
    have hany : (getTextNodes e).any
        (fun n => isMatchNode e.isMention u l n.content) = true :=
      List.any_eq_true.mpr ⟨n0, hn0, hm0⟩
    simp only [hany, if_true]
    by_cases hcase : enabled = true ∧ l ≠ u
    · rw [if_pos hcase]
      have hshow : ¬(enabled = false ∨ l = u) := by
        rintro (hh | hh)
        · rw [hcase.1] at hh
          exact absurd hh (by simp)
        · exact hcase.2 hh
      rw [if_neg hshow]
    · rw [if_neg hcase]
      have hshow : enabled = false ∨ l = u := by
        by_cases he : enabled = true
        · exact Or.inr (by
            by_contra hlu
            exact hcase ⟨he, hlu⟩)
        · exact Or.inl (by simpa using he)
      rw [if_pos hshow]
  · intro hall
    have hany : (getTextNodes e).any
        (fun n => isMatchNode e.isMention u l n.content) = false := by
      rw [List.any_eq_false]
      intro n hn
      simp [hall n hn]
    simp [hany]

theorem pathSegmentBranch_sound (href text u : Str)
    (h : pathSegmentBranch href text = some u) :
    lower text = lower u ∧ firstPathSegment href = some u ∧
    EXCLUDED_PATHS.contains (lower u) = false := by
  unfold pathSegmentBranch at h
  split at h
  · rename_i seg heq
    split at h
    · rename_i hcond
      injection h with hu
      subst hu
      refine ⟨?_, heq, hcond.1⟩
      have := hcond.2
      simpa [textMatchesUsername] using this
    · exact absurd h (by simp)
  · exact absurd h (by simp)

/-- C7: whenever the href-based extraction returns a handle, that handle
equals the node's visible text case-insensitively, and it was derived either
from an `author=`/`author:` query parameter of the decoded href or from a
first path segment whose lowercase form is not in the reserved-path
exclusion set; hence a link whose visible text differs from every candidate
yields null from this step. -/
theorem extractUsernameFromHref_sound (href text u : Str)
    (h : extractUsernameFromHref href text = some u) :
    lower text = lower u ∧
    (findAuthor (decodeURIComponentL href) = some u ∨
      (firstPathSegment href = some u ∧
        EXCLUDED_PATHS.contains (lower u) = false)) := by
  unfold extractUsernameFromHref at h
  split at h
  · exact absurd h (by simp)
  · split at h
    · exact absurd h (by simp)
    · split at h
      · rename_i username heq
        split at h
        · rename_i hmt
          injection h with hu
          subst hu
          refine ⟨?_, Or.inl heq⟩
          simpa [textMatchesUsername] using hmt
        · obtain ⟨h1, h2, h3⟩ := pathSegmentBranch_sound href text u h
          exact ⟨h1, Or.inr ⟨h2, h3⟩⟩
      · obtain ⟨h1, h2, h3⟩ := pathSegmentBranch_sound href text u h
        exact ⟨h1, Or.inr ⟨h2, h3⟩⟩

/-! ## Helper lemmas about the resolver and the cache store -/

theorem cacheWrite_mem (w : World) (u label : Str) :
    alGet (cacheWrite w u label).mem u = some label :=
  alGet_alPut_same w.mem u label

theorem cacheWrite_store (w : World) (u label : Str) :
    alGet (cacheWrite w u label).store u =
      some (StoreVal.entry (some label) (some w.now)) :=
  alGet_alPut_same w.store u (StoreVal.entry (some label) (some w.now))

theorem writeRateLimit_now (w : World) (rl : Option (Int × Int × Int)) :
    (writeRateLimit w rl).now = w.now := by
  cases rl with
  | none => rfl
  | some p =>
    obtain ⟨a, b, c⟩ := p
    rfl

theorem writeRateLimit_mem (w : World) (rl : Option (Int × Int × Int)) :
    (writeRateLimit w rl).mem = w.mem := by
  cases rl with
  | none => rfl
  | some p =>
    obtain ⟨a, b, c⟩ := p
    rfl

theorem fetchRealName_miss_failure (w : World) (u : Str) (o : FetchOutcome)
    (hu : u ≠ []) (hmiss : alGet w.mem u = none)
    (hfail : isFailureOutcome o = true) :
    ∃ w0 : World, w0.now = w.now ∧
      fetchRealName w u false o = (some u, cacheWrite w0 u u,
        [Ev.remoteFetch u]) := by
  have hskip : ¬(false = false ∧ (alGet w.mem u).isSome = true) := by
    simp [hmiss]
  cases o with
  | networkError =>
    refine ⟨w, rfl, ?_⟩
    rw [fetchRealName, if_neg hu, if_neg hskip]
  | httpError st rl =>
    refine ⟨writeRateLimit w rl, writeRateLimit_now w rl, ?_⟩
    rw [fetchRealName, if_neg hu, if_neg hskip]
  | jsonError rl =>
    refine ⟨writeRateLimit w rl, writeRateLimit_now w rl, ?_⟩
    rw [fetchRealName, if_neg hu, if_neg hskip]
  | success nf rl => simp [isFailureOutcome] at hfail

/-- C1: the resolver never throws (it is a total function of the lookup
outcome); for every handle not yet in the memory tier and every failure
outcome of the remote lookup (network error, non-success HTTP status,
malformed payload), `fetchRealName` returns the handle itself as the label,
writes the handle-as-label entry into both the memory tier and the durable
tier under the handle key, and a subsequent call for the same handle is a
memory-cache hit returning the same label, leaving the state unchanged and
issuing no further remote call. -/
theorem fetchRealName_failure_caches_handle (w : World) (u : Str)
    (o o2 : FetchOutcome) (hu : u ≠ []) (hmiss : alGet w.mem u = none)
    (hfail : isFailureOutcome o = true) :
    (fetchRealName w u false o).1 = some u ∧
    alGet (fetchRealName w u false o).2.1.mem u = some u ∧
    alGet (fetchRealName w u false o).2.1.store u =
      some (StoreVal.entry (some u) (some w.now)) ∧
    fetchRealName (fetchRealName w u false o).2.1 u false o2 =
      (some u, (fetchRealName w u false o).2.1, []) := by
  obtain ⟨w0, hnow, hred⟩ := fetchRealName_miss_failure w u o hu hmiss hfail
  refine ⟨by rw [hred], ?_, ?_, ?_⟩
  · rw [hred]
    exact cacheWrite_mem w0 u u
  · rw [hred]
    rw [show (some u, cacheWrite w0 u u, [Ev.remoteFetch u]).2.1
        = cacheWrite w0 u u from rfl]
    rw [cacheWrite_store w0 u u, hnow]
  · rw [hred]
    have hhit : (false = false ∧
        (alGet (cacheWrite w0 u u).mem u).isSome = true) := by
      rw [cacheWrite_mem]
      exact ⟨rfl, rfl⟩
    rw [fetchRealName.eq_def, if_neg hu, if_pos hhit, cacheWrite_mem]

/-- C5: a background revalidation is triggered if and only if the entry's
age `now - resolvedAt` exceeds the 24-hour threshold `REVALIDATE_AGE_MS`;
a fresh entry triggers nothing at all; staleness never removes the memory
entry; and in the memory-hit path of `updateElement` the cached label is
served by the first display write regardless of staleness. -/
theorem staleness_iff_24h (w : World) (es : ElemState) (u : Str) (ts : Int)
    (o : FetchOutcome) (hu : u ≠ []) :
    ((revalidateIfStale w u ts o).1 = [Ev.remoteFetch u] ↔
      w.now - ts > REVALIDATE_AGE_MS) ∧
    (w.now - ts ≤ REVALIDATE_AGE_MS → revalidateIfStale w u ts o = ([], w)) ∧
    REVALIDATE_AGE_MS = 86400000 ∧
    (∀ l, alGet w.mem u = some l →
      (alGet (revalidateIfStale w u ts o).2.mem u).isSome = true) ∧
    (∀ rn, w.enabled = true → es.processed = false → alGet w.mem u = some rn →
      (updateElement w es (some u) o).1.head? = some (Ev.display u rn)) := by
  have hfetch : ∀ wx : World, (fetchRealName wx u true o).2.2 =
      [Ev.remoteFetch u] ∧
      (alGet (fetchRealName wx u true o).2.1.mem u).isSome = true := by
    intro wx
    have hskip : ¬(true = false ∧ (alGet wx.mem u).isSome = true) := by
      simp
    cases o with
    | networkError =>
      rw [fetchRealName, if_neg hu, if_neg hskip]
      exact ⟨rfl, by rw [cacheWrite_mem]; rfl⟩
    | httpError st rl =>
      rw [fetchRealName, if_neg hu, if_neg hskip]
      exact ⟨rfl, by rw [cacheWrite_mem]; rfl⟩
    | jsonError rl =>
      rw [fetchRealName, if_neg hu, if_neg hskip]
      exact ⟨rfl, by rw [cacheWrite_mem]; rfl⟩
    | success nf rl =>
      rw [fetchRealName.eq_def, if_neg hu, if_neg hskip]
      exact ⟨rfl, by rw [cacheWrite_mem]; rfl⟩
  refine ⟨?_, ?_, rfl, ?_, ?_⟩
  · by_cases hst : w.now - ts > REVALIDATE_AGE_MS
    · rw [revalidateIfStale, if_pos hst]
      simp [hst, (hfetch w).1]
    · rw [revalidateIfStale, if_neg hst]
      simp [hst]
  · intro hfresh
    rw [revalidateIfStale, if_neg (by omega)]
  · intro l hl
    by_cases hst : w.now - ts > REVALIDATE_AGE_MS
    · rw [revalidateIfStale, if_pos hst]
      exact (hfetch w).2
    · rw [revalidateIfStale, if_neg hst]
      rw [hl]
      rfl
  · intro rn hen hproc hmem
    rw [updateElement, if_neg (by simp [hproc]), if_neg (by simp [hen]), hmem]
    cases htt : truthyTimestamp (alGet w.store u) with
    | some ts' => simp [htt]
    | none => simp [htt]

/-! ## Helper lemmas about the daily purge -/

theorem shouldRemoveKey_iff (now : Int) (k : Str) (v : StoreVal) :
    shouldRemoveKey now k v = true ↔
      (protectedKeys.contains k = false ∧
        ∃ nm ts, v = StoreVal.entry nm (some ts) ∧ ts ≠ 0 ∧
          now - ts > CACHE_MAX_AGE_MS) := by
  rw [shouldRemoveKey]
  cases v with
  | boolVal b => simp [truthyTimestamp]
  | strVal s => simp [truthyTimestamp]
  | rlVal a b c => simp [truthyTimestamp]
  | entry nm tsOpt =>
    cases tsOpt with
    | none => simp [truthyTimestamp]
    | some ts =>
      by_cases hz : ts = 0
      · subst hz
        simp [truthyTimestamp]
      · simp [truthyTimestamp, hz]
        intro _
        constructor
        · intro h
          exact ⟨nm, ts, ⟨rfl, rfl⟩, hz, h⟩
        · rintro ⟨nm1, ts1, ⟨hnm, hts⟩, hz1, hgt⟩
          subst hts
          exact hgt

/-- C6 (amended): the daily purge keeps a store pair exactly when its key is
reserved or its value is not an object entry with a truthy (nonzero)
timestamp older than the 7-day retention threshold; in particular reserved
keys survive regardless of the age or shape of their value. -/
theorem clearOldCache_removes_expired (now : Int)
    (items : List (Str × StoreVal)) (k : Str) (v : StoreVal) :
    ((k, v) ∈ clearOldCache now items ↔
      ((k, v) ∈ items ∧
        ¬(protectedKeys.contains k = false ∧
          ∃ nm ts, v = StoreVal.entry nm (some ts) ∧ ts ≠ 0 ∧
            now - ts > CACHE_MAX_AGE_MS))) ∧
    (protectedKeys.contains k = true →
      ((k, v) ∈ clearOldCache now items ↔ (k, v) ∈ items)) := by
  have hmain : (k, v) ∈ clearOldCache now items ↔
      ((k, v) ∈ items ∧ shouldRemoveKey now k v = false) := by
    rw [clearOldCache, List.mem_filter]
    simp
  constructor
  · rw [hmain]
    constructor
    · rintro ⟨h1, h2⟩
      refine ⟨h1, ?_⟩
      intro hcontra
      rw [(shouldRemoveKey_iff now k v).mpr hcontra] at h2
      cases h2
    · rintro ⟨h1, h2⟩
      refine ⟨h1, ?_⟩
      cases hb : shouldRemoveKey now k v
      · rfl
      · exact absurd ((shouldRemoveKey_iff now k v).mp hb) h2
  · intro hk
    rw [hmain]
    have hrm : shouldRemoveKey now k v = false := by
      rw [shouldRemoveKey, hk]
      rfl
    simp [hrm]

/-- C6 counterexample: a non-reserved entry whose timestamp is 0 (the epoch,
older than any 7-day window) is nevertheless kept by the purge, because the
removal test requires a truthy timestamp; so "every non-reserved entry older
than 7 days is removed" fails as stated. -/
theorem clearOldCache_keeps_zero_timestamp :
    protectedKeys.contains ("someuser".toList) = false ∧
    (604800001 : Int) - 0 > CACHE_MAX_AGE_MS ∧
    clearOldCache 604800001
      [(("someuser".toList),
        StoreVal.entry (some ("Some User".toList)) (some 0))] =
      [(("someuser".toList),
        StoreVal.entry (some ("Some User".toList)) (some 0))] := by
  decide

/-- C2: the durable-tier cache write of `fetchRealName` uses the raw handle
as the store key with no reserved-key guard; the handle `enabled` — which
the href extraction can produce, since `enabled` is not in the
reserved-path exclusion set — overwrites the stored `enabled` configuration
flag with a cache entry instead of being rejected or redirected. -/
theorem cacheWrite_overwrites_enabled_flag :
    extractUsernameFromHref ("/enabled".toList) ("enabled".toList) =
      some enabledKey ∧
    protectedKeys.contains enabledKey = true ∧
    alGet
      (fetchRealName ⟨true, [], [(enabledKey, StoreVal.boolVal true)], 100⟩
        enabledKey false FetchOutcome.networkError).2.1.store enabledKey =
      some (StoreVal.entry (some enabledKey) (some 100)) := by
  decide

/-- C9 (amended): for a previously unseen element classified to a handle,
`updateElement` attaches the marker (processed flag and username attribute),
and its first recorded event is always a display write, issued before any
remote fetch; in the disabled path and in every memory-miss path (durable
hit or remote fetch) that first write shows the handle as its own label,
while on a memory-cache hit the first write directly shows the cached
label. -/
theorem updateElement_first_display (w : World) (es : ElemState) (u : Str)
    (o : FetchOutcome) (hproc : es.processed = false) :
    (updateElement w es (some u) o).2.2 = ⟨true, some u⟩ ∧
    (∃ rn, (updateElement w es (some u) o).1.head? = some (Ev.display u rn)) ∧
    ((w.enabled = false ∨ alGet w.mem u = none) →
      (updateElement w es (some u) o).1.head? = some (Ev.display u u)) ∧
    (∀ rn, w.enabled = true → alGet w.mem u = some rn →
      (updateElement w es (some u) o).1.head? = some (Ev.display u rn)) := by
  rw [updateElement, if_neg (by simp [hproc])]
  by_cases hen : w.enabled = false
  · rw [if_pos hen]
    refine ⟨rfl, ⟨u, rfl⟩, fun _ => rfl, fun rn hrn _ => ?_⟩
    rw [hen] at hrn
    exact absurd hrn (by simp)
  · rw [if_neg hen]
    cases hmem : alGet w.mem u with
    | some rn =>
      cases htt : truthyTimestamp (alGet w.store u) with
      | some ts =>
        refine ⟨rfl, ⟨rn, rfl⟩, ?_, ?_⟩
        · rintro (hf | hmiss)
          · exact absurd hf hen
          · cases hmiss
        · intro rn' _ hsome
          injection hsome with hrn
          subst hrn
          rfl
      | none =>
        refine ⟨rfl, ⟨rn, rfl⟩, ?_, ?_⟩
        · rintro (hf | hmiss)
          · exact absurd hf hen
          · cases hmiss
        · intro rn' _ hsome
          injection hsome with hrn
          subst hrn
          rfl
    | none =>
      cases htn : truthyName (alGet w.store u) with
      | some sn =>
        cases htt : truthyTimestamp (alGet w.store u) with
        | some ts => exact ⟨rfl, ⟨u, rfl⟩, fun _ => rfl, fun rn hrn hsome => by cases hsome⟩
        | none => exact ⟨rfl, ⟨u, rfl⟩, fun _ => rfl, fun rn hrn hsome => by cases hsome⟩
      | none =>
        exact ⟨rfl, ⟨u, rfl⟩, fun _ => rfl, fun rn hrn hsome => by cases hsome⟩

/-- C9 counterexample: on a memory-cache hit the first display write after
classification shows the cached label, not the handle, so "in every path the
first display write shows the handle" fails as stated. -/
theorem updateElement_memhit_shows_label_first :
    (updateElement ⟨true, [(("octocat".toList), ("The Octocat".toList))], [], 0⟩
      ⟨false, none⟩ (some ("octocat".toList)) FetchOutcome.networkError).1 =
      [Ev.display ("octocat".toList) ("The Octocat".toList)] ∧
    ("The Octocat".toList) ≠ ("octocat".toList) := by
  decide

/-- C10 (amended): the `refreshCache` handler clears only the memory-tier
name cache and the processed-marker state and leaves every durable-store
entry unchanged; during the forced reprocessing pass an element reclassified
to a handle whose durable entry is still present is re-displayed from the
stored name, and no remote fetch occurs when that entry is younger than the
24-hour revalidation threshold (a stale entry additionally fires a
background revalidation fetch). -/
theorem refreshCache_durable_frame (w : World) (es : ElemState) (u n : Str)
    (ts : Int) (o : FetchOutcome)
    (hen : w.enabled = true)
    (hstore : alGet w.store u = some (StoreVal.entry (some n) (some ts)))
    (hn : n ≠ []) (hts : ts ≠ 0)
    (hfresh : w.now - ts ≤ REVALIDATE_AGE_MS) :
    (refreshCacheWorld w).store = w.store ∧
    (refreshCacheWorld w).mem = [] ∧
    refreshCacheElem es = ⟨false, es.attr⟩ ∧
    (updateElement (refreshCacheWorld w) (refreshCacheElem es) (some u) o).1 =
      [Ev.display u u, Ev.display u n] ∧
    (∀ x, Ev.remoteFetch x ∉
      (updateElement (refreshCacheWorld w) (refreshCacheElem es) (some u) o).1)
    := by
  have hmem0 : alGet (refreshCacheWorld w).mem u = none := rfl
  have hstore0 : alGet (refreshCacheWorld w).store u =
      some (StoreVal.entry (some n) (some ts)) := hstore
  have htn : truthyName (alGet (refreshCacheWorld w).store u) = some n := by
    rw [hstore0]
    simp [truthyName, hn]
  have htt : truthyTimestamp (alGet (refreshCacheWorld w).store u) = some ts := by
    rw [hstore0]
    simp [truthyTimestamp, hts]
  have hstale' : ¬(w.now - ts > REVALIDATE_AGE_MS) := by omega
  have htrace :
      (updateElement (refreshCacheWorld w) (refreshCacheElem es) (some u) o).1 =
      [Ev.display u u, Ev.display u n] := by
    rw [updateElement, if_neg (by simp [refreshCacheElem]),
      if_neg (by simp [refreshCacheWorld, hen]), hmem0, htn, htt]
    simp [revalidateIfStale, refreshCacheWorld, hstale']
  exact ⟨rfl, rfl, rfl, htrace, fun x => by rw [htrace]; simp⟩

/-- C10 counterexample: when the surviving durable entry is older than the
24-hour revalidation threshold, the reprocessing pass after `refreshCache`
does issue a remote call (the background revalidation), so "re-displayed
from the stored name without any remote fetch" fails as stated. -/
theorem refreshCache_stale_entry_fetches :
    Ev.remoteFetch ("octocat".toList) ∈
      (updateElement
        (refreshCacheWorld ⟨true,
          [(("octocat".toList), ("The Octocat".toList))],
          [(("octocat".toList),
            StoreVal.entry (some ("The Octocat".toList)) (some 1))],
          86400002⟩)
        (refreshCacheElem ⟨true, some ("octocat".toList)⟩)
        (some ("octocat".toList)) FetchOutcome.networkError).1 := by
  decide

/-! ## Witnesses: each hypothesis-bearing claim theorem evaluated at a
concrete input -/

theorem fetchRealName_failure_caches_handle_witness :
    ("octocat".toList) ≠ ([] : Str) ∧
    alGet ([] : List (Str × Str)) ("octocat".toList) = none ∧
    isFailureOutcome FetchOutcome.networkError = true ∧
    ((fetchRealName ⟨true, [], [], 50⟩ ("octocat".toList) false
        FetchOutcome.networkError).1 = some ("octocat".toList) ∧
      alGet (fetchRealName ⟨true, [], [], 50⟩ ("octocat".toList) false
        FetchOutcome.networkError).2.1.mem ("octocat".toList) =
        some ("octocat".toList) ∧
      alGet (fetchRealName ⟨true, [], [], 50⟩ ("octocat".toList) false
        FetchOutcome.networkError).2.1.store ("octocat".toList) =
        some (StoreVal.entry (some ("octocat".toList)) (some 50)) ∧
      fetchRealName (fetchRealName ⟨true, [], [], 50⟩ ("octocat".toList) false
        FetchOutcome.networkError).2.1 ("octocat".toList) false
        FetchOutcome.networkError =
        (some ("octocat".toList),
         (fetchRealName ⟨true, [], [], 50⟩ ("octocat".toList) false
           FetchOutcome.networkError).2.1, [])) :=
  ⟨by decide, by decide, by decide,
    fetchRealName_failure_caches_handle ⟨true, [], [], 50⟩ ("octocat".toList)
      FetchOutcome.networkError FetchOutcome.networkError (by decide)
      (by decide) (by decide)⟩

theorem toggle_roundtrip_restores_display_witness :
    alGet [(("octocat".toList), ("The Octocat".toList))] ("octocat".toList) =
      some ("The Octocat".toList) ∧
    ("The Octocat".toList) ≠ ("octocat".toList) ∧
    trimChars ("octocat".toList) = ("octocat".toList) ∧
    ("octocat".toList) ≠ ([] : Str) ∧
    ("The Octocat".toList) ≠ ([] : Str) ∧
    (⟨false, [⟨(" The Octocat ".toList), false⟩],
      some ('@' :: ("octocat".toList))⟩ : Elem).title =
      some ('@' :: ("octocat".toList)) ∧
    (∀ n ∈ (⟨false, [⟨(" The Octocat ".toList), false⟩],
        some ('@' :: ("octocat".toList))⟩ : Elem).nodes,
      visibleTextNode n = true →
      isMatchNode false ("octocat".toList) ("The Octocat".toList) n.content
        = true →
      trimChars n.content = ("The Octocat".toList)) ∧
    (∃ n ∈ (⟨false, [⟨(" The Octocat ".toList), false⟩],
        some ('@' :: ("octocat".toList))⟩ : Elem).nodes,
      visibleTextNode n = true ∧
      trimChars n.content = ("The Octocat".toList)) ∧
    toggleDisplayElement true [(("octocat".toList), ("The Octocat".toList))]
      (toggleDisplayElement false
        [(("octocat".toList), ("The Octocat".toList))]
        ⟨false, [⟨(" The Octocat ".toList), false⟩],
          some ('@' :: ("octocat".toList))⟩ ("octocat".toList))
      ("octocat".toList) =
      ⟨false, [⟨(" The Octocat ".toList), false⟩],
        some ('@' :: ("octocat".toList))⟩ :=
  ⟨by decide, by decide, by decide, by decide, by decide, by decide,
    by decide, by decide,
    toggle_roundtrip_restores_display
      [(("octocat".toList), ("The Octocat".toList))]
      ⟨false, [⟨(" The Octocat ".toList), false⟩],
        some ('@' :: ("octocat".toList))⟩
      ("octocat".toList) ("The Octocat".toList)
      (by decide) (by decide) (by decide) (by decide) (by decide) (by decide)
      (by decide) (by decide)⟩

theorem disabled_display_writes_handle_only_witness :
    (∀ n' ∈ (updateElementDisplay false
        ⟨true, [⟨("@octocat".toList), false⟩],
          some ('@' :: ("octocat".toList))⟩
        ("octocat".toList) ("The Octocat".toList)).nodes,
      n' ∈ (⟨true, [⟨("@octocat".toList), false⟩],
        some ('@' :: ("octocat".toList))⟩ : Elem).nodes ∨
      n'.content = mentionText (⟨true, [⟨("@octocat".toList), false⟩],
        some ('@' :: ("octocat".toList))⟩ : Elem).isMention
        ("octocat".toList) ∨
      ∃ n ∈ (⟨true, [⟨("@octocat".toList), false⟩],
        some ('@' :: ("octocat".toList))⟩ : Elem).nodes,
        n'.content = leadingWs n.content ++
          mentionText (⟨true, [⟨("@octocat".toList), false⟩],
            some ('@' :: ("octocat".toList))⟩ : Elem).isMention
            ("octocat".toList) ++ trailingWs n.content) ∧
    ((getTextNodes ⟨true, [⟨("@octocat".toList), false⟩],
        some ('@' :: ("octocat".toList))⟩ = [] ∨
      ∃ n ∈ getTextNodes ⟨true, [⟨("@octocat".toList), false⟩],
        some ('@' :: ("octocat".toList))⟩,
        isMatchNode (⟨true, [⟨("@octocat".toList), false⟩],
          some ('@' :: ("octocat".toList))⟩ : Elem).isMention
          ("octocat".toList) ("The Octocat".toList) n.content = true) →
      (updateElementDisplay false
        ⟨true, [⟨("@octocat".toList), false⟩],
          some ('@' :: ("octocat".toList))⟩
        ("octocat".toList) ("The Octocat".toList)).title = none) :=
  disabled_display_writes_handle_only
    ⟨true, [⟨("@octocat".toList), false⟩], some ('@' :: ("octocat".toList))⟩
    ("octocat".toList) ("The Octocat".toList)

theorem staleness_iff_24h_witness :
    ("octocat".toList) ≠ ([] : Str) ∧
    (((revalidateIfStale ⟨true, [(("octocat".toList), ("The Octocat".toList))],
        [], 90000000⟩ ("octocat".toList) 1 FetchOutcome.networkError).1 =
        [Ev.remoteFetch ("octocat".toList)] ↔
        (90000000 : Int) - 1 > REVALIDATE_AGE_MS) ∧
      ((90000000 : Int) - 1 ≤ REVALIDATE_AGE_MS →
        revalidateIfStale ⟨true, [(("octocat".toList), ("The Octocat".toList))],
          [], 90000000⟩ ("octocat".toList) 1 FetchOutcome.networkError =
          ([], ⟨true, [(("octocat".toList), ("The Octocat".toList))], [],
            90000000⟩)) ∧
      REVALIDATE_AGE_MS = 86400000 ∧
      (∀ l, alGet [(("octocat".toList), ("The Octocat".toList))]
          ("octocat".toList) = some l →
        (alGet (revalidateIfStale
          ⟨true, [(("octocat".toList), ("The Octocat".toList))], [], 90000000⟩
          ("octocat".toList) 1 FetchOutcome.networkError).2.mem
          ("octocat".toList)).isSome = true) ∧
      (∀ rn, (⟨true, [(("octocat".toList), ("The Octocat".toList))], [],
          90000000⟩ : World).enabled = true →
        (⟨false, none⟩ : ElemState).processed = false →
        alGet [(("octocat".toList), ("The Octocat".toList))]
          ("octocat".toList) = some rn →
        (updateElement ⟨true, [(("octocat".toList), ("The Octocat".toList))],
          [], 90000000⟩ ⟨false, none⟩ (some ("octocat".toList))
          FetchOutcome.networkError).1.head? =
          some (Ev.display ("octocat".toList) rn))) :=
  ⟨by decide,
    staleness_iff_24h
      ⟨true, [(("octocat".toList), ("The Octocat".toList))], [], 90000000⟩
      ⟨false, none⟩ ("octocat".toList) 1 FetchOutcome.networkError (by decide)⟩

theorem clearOldCache_removes_expired_witness :
    ((enabledKey, StoreVal.boolVal true) ∈
        clearOldCache 10 [(enabledKey, StoreVal.boolVal true)] ↔
      ((enabledKey, StoreVal.boolVal true) ∈
          [(enabledKey, StoreVal.boolVal true)] ∧
        ¬(protectedKeys.contains enabledKey = false ∧
          ∃ nm ts, StoreVal.boolVal true = StoreVal.entry nm (some ts) ∧
            ts ≠ 0 ∧ (10 : Int) - ts > CACHE_MAX_AGE_MS))) ∧
    (protectedKeys.contains enabledKey = true →
      ((enabledKey, StoreVal.boolVal true) ∈
          clearOldCache 10 [(enabledKey, StoreVal.boolVal true)] ↔
        (enabledKey, StoreVal.boolVal true) ∈
          [(enabledKey, StoreVal.boolVal true)])) :=
  clearOldCache_removes_expired 10 [(enabledKey, StoreVal.boolVal true)]
    enabledKey (StoreVal.boolVal true)

theorem extractUsernameFromHref_sound_witness :
    extractUsernameFromHref ("/octocat".toList) ("OctoCat".toList) =
      some ("octocat".toList) ∧
    (lower ("OctoCat".toList) = lower ("octocat".toList) ∧
      (findAuthor (decodeURIComponentL ("/octocat".toList)) =
          some ("octocat".toList) ∨
        (firstPathSegment ("/octocat".toList) = some ("octocat".toList) ∧
          EXCLUDED_PATHS.contains (lower ("octocat".toList)) = false))) :=
  ⟨by decide,
    extractUsernameFromHref_sound ("/octocat".toList) ("OctoCat".toList)
      ("octocat".toList) (by decide)⟩

theorem updateElementDisplay_frame_witness :
    getTextNodes ⟨false, [⟨(" octocat ".toList), false⟩,
        ⟨("xyz".toList), false⟩], none⟩ ≠ [] ∧
    ((updateElementDisplay true ⟨false, [⟨(" octocat ".toList), false⟩,
        ⟨("xyz".toList), false⟩], none⟩ ("octocat".toList)
        ("The Octocat".toList)).isMention =
      (⟨false, [⟨(" octocat ".toList), false⟩, ⟨("xyz".toList), false⟩],
        none⟩ : Elem).isMention ∧
      (updateElementDisplay true ⟨false, [⟨(" octocat ".toList), false⟩,
        ⟨("xyz".toList), false⟩], none⟩ ("octocat".toList)
        ("The Octocat".toList)).nodes.length =
      (⟨false, [⟨(" octocat ".toList), false⟩, ⟨("xyz".toList), false⟩],
        none⟩ : Elem).nodes.length ∧
      (∀ p ∈ (⟨false, [⟨(" octocat ".toList), false⟩,
          ⟨("xyz".toList), false⟩], none⟩ : Elem).nodes.zip
          (updateElementDisplay true ⟨false, [⟨(" octocat ".toList), false⟩,
            ⟨("xyz".toList), false⟩], none⟩ ("octocat".toList)
            ("The Octocat".toList)).nodes,
        p.2.inSvg = p.1.inSvg ∧
        (p.2 ≠ p.1 →
          lower (trimChars p.1.content) ∈
            [lower ("octocat".toList), '@' :: lower ("octocat".toList),
             lower ("The Octocat".toList),
             '@' :: lower ("The Octocat".toList)] ∧
          p.2.content = leadingWs p.1.content ++
            (if true = true ∧ ("The Octocat".toList) ≠ ("octocat".toList) then
              ("The Octocat".toList)
            else mentionText (⟨false, [⟨(" octocat ".toList), false⟩,
              ⟨("xyz".toList), false⟩], none⟩ : Elem).isMention
              ("octocat".toList)) ++
            trailingWs p.1.content)) ∧
      ((∃ n ∈ getTextNodes ⟨false, [⟨(" octocat ".toList), false⟩,
          ⟨("xyz".toList), false⟩], none⟩,
        isMatchNode (⟨false, [⟨(" octocat ".toList), false⟩,
          ⟨("xyz".toList), false⟩], none⟩ : Elem).isMention
          ("octocat".toList) ("The Octocat".toList) n.content = true) →
        (updateElementDisplay true ⟨false, [⟨(" octocat ".toList), false⟩,
          ⟨("xyz".toList), false⟩], none⟩ ("octocat".toList)
          ("The Octocat".toList)).title =
          (if true = true ∧ ("The Octocat".toList) ≠ ("octocat".toList) then
            some ('@' :: ("octocat".toList))
          else none)) ∧
      ((∀ n ∈ getTextNodes ⟨false, [⟨(" octocat ".toList), false⟩,
          ⟨("xyz".toList), false⟩], none⟩,
        isMatchNode (⟨false, [⟨(" octocat ".toList), false⟩,
          ⟨("xyz".toList), false⟩], none⟩ : Elem).isMention
          ("octocat".toList) ("The Octocat".toList) n.content = false) →
        (updateElementDisplay true ⟨false, [⟨(" octocat ".toList), false⟩,
          ⟨("xyz".toList), false⟩], none⟩ ("octocat".toList)
          ("The Octocat".toList)).title =
        (⟨false, [⟨(" octocat ".toList), false⟩, ⟨("xyz".toList), false⟩],
          none⟩ : Elem).title)) :=
  ⟨by decide,
    updateElementDisplay_frame true
      ⟨false, [⟨(" octocat ".toList), false⟩, ⟨("xyz".toList), false⟩], none⟩
      ("octocat".toList) ("The Octocat".toList) (by decide)⟩

theorem updateElement_first_display_witness :
    (⟨false, none⟩ : ElemState).processed = false ∧
    ((updateElement ⟨false, [], [], 0⟩ ⟨false, none⟩
        (some ("octocat".toList)) FetchOutcome.networkError).2.2 =
      ⟨true, some ("octocat".toList)⟩ ∧
      (∃ rn, (updateElement ⟨false, [], [], 0⟩ ⟨false, none⟩
        (some ("octocat".toList)) FetchOutcome.networkError).1.head? =
        some (Ev.display ("octocat".toList) rn)) ∧
      (((⟨false, [], [], 0⟩ : World).enabled = false ∨
        alGet ([] : List (Str × Str)) ("octocat".toList) = none) →
        (updateElement ⟨false, [], [], 0⟩ ⟨false, none⟩
          (some ("octocat".toList)) FetchOutcome.networkError).1.head? =
          some (Ev.display ("octocat".toList) ("octocat".toList))) ∧
      (∀ rn, (⟨false, [], [], 0⟩ : World).enabled = true →
        alGet ([] : List (Str × Str)) ("octocat".toList) = some rn →
        (updateElement ⟨false, [], [], 0⟩ ⟨false, none⟩
          (some ("octocat".toList)) FetchOutcome.networkError).1.head? =
          some (Ev.display ("octocat".toList) rn))) :=
  ⟨by decide,
    updateElement_first_display ⟨false, [], [], 0⟩ ⟨false, none⟩
      ("octocat".toList) FetchOutcome.networkError (by decide)⟩

theorem refreshCache_durable_frame_witness :
    (⟨true, [(("octocat".toList), ("The Octocat".toList))],
      [(("octocat".toList),
        StoreVal.entry (some ("The Octocat".toList)) (some 40))], 50⟩ :
      World).enabled = true ∧
    alGet [(("octocat".toList),
      StoreVal.entry (some ("The Octocat".toList)) (some 40))]
      ("octocat".toList) =
      some (StoreVal.entry (some ("The Octocat".toList)) (some 40)) ∧
    ("The Octocat".toList) ≠ ([] : Str) ∧
    (40 : Int) ≠ 0 ∧
    (50 : Int) - 40 ≤ REVALIDATE_AGE_MS ∧
    ((refreshCacheWorld ⟨true, [(("octocat".toList), ("The Octocat".toList))],
      [(("octocat".toList),
        StoreVal.entry (some ("The Octocat".toList)) (some 40))], 50⟩).store =
      [(("octocat".toList),
        StoreVal.entry (some ("The Octocat".toList)) (some 40))] ∧
      (refreshCacheWorld ⟨true, [(("octocat".toList), ("The Octocat".toList))],
        [(("octocat".toList),
          StoreVal.entry (some ("The Octocat".toList)) (some 40))], 50⟩).mem =
        [] ∧
      refreshCacheElem ⟨true, some ("octocat".toList)⟩ =
        ⟨false, some ("octocat".toList)⟩ ∧
      (updateElement (refreshCacheWorld
        ⟨true, [(("octocat".toList), ("The Octocat".toList))],
          [(("octocat".toList),
            StoreVal.entry (some ("The Octocat".toList)) (some 40))], 50⟩)
        (refreshCacheElem ⟨true, some ("octocat".toList)⟩)
        (some ("octocat".toList)) FetchOutcome.networkError).1 =
        [Ev.display ("octocat".toList) ("octocat".toList),
         Ev.display ("octocat".toList) ("The Octocat".toList)] ∧
      (∀ x, Ev.remoteFetch x ∉
        (updateElement (refreshCacheWorld
          ⟨true, [(("octocat".toList), ("The Octocat".toList))],
            [(("octocat".toList),
              StoreVal.entry (some ("The Octocat".toList)) (some 40))], 50⟩)
          (refreshCacheElem ⟨true, some ("octocat".toList)⟩)
          (some ("octocat".toList)) FetchOutcome.networkError).1)) :=
  ⟨by decide, by decide, by decide, by decide, by decide,
    refreshCache_durable_frame
      ⟨true, [(("octocat".toList), ("The Octocat".toList))],
        [(("octocat".toList),
          StoreVal.entry (some ("The Octocat".toList)) (some 40))], 50⟩
      ⟨true, some ("octocat".toList)⟩ ("octocat".toList)
      ("The Octocat".toList) 40 FetchOutcome.networkError
      (by decide) (by decide) (by decide) (by decide) (by decide)⟩

end GitHubRealNames
